import Mathlib

/-!
Verification of the interval-derivation, validation and binning logic of
`plot_group` (src/plotly_group.py).

Modelling conventions:
* Series values are rationals (`ℚ`), standing for the Python ints/floats of a
  Pandas series after `dropna()`; Python's `round(x, 3)` is modelled exactly as
  round-half-to-even on thousandths.
* Bin labels are modelled structurally (`BinLabel.range lo hi` for the f-string
  label made of the two bounds, `BinLabel.plus hi` for the overflow label);
  the numeric content of a label is what the claims are about, not the decimal
  rendering.
* A dictionary entry of the source, which stores the matched numpy array and
  its length, is modelled as a `BinLabel × List ℚ × ℕ` triple.
* Fallible steps return `Except`/`Option`; `none` in `groupSeries` models the
  IndexError of `intervals[-1]` on an empty interval list.
-/

namespace PlotlyGroup

/-- Error kinds of the source: `TypeKind` for a raised `TypeError`,
`ValueKind` for a raised `ValueError`. -/
inductive ErrKind
  | TypeKind
  | ValueKind
deriving DecidableEq

/-- Structural model of the dictionary keys of the source: the finite-bin
label built from the two bounds, and the overflow label built from the last
upper bound. -/
inductive BinLabel
  | range (lo hi : ℚ)
  | plus (hi : ℚ)
deriving DecidableEq

/-- Insert a value into an ascending list, keeping it ascending. -/
def insertAsc (x : ℚ) : List ℚ → List ℚ
  | [] => [x]
  | y :: ys => if x ≤ y then x :: y :: ys else y :: insertAsc x ys

/-- Ascending sort of the series values, as performed inside `np.percentile`. -/
def sortAsc (l : List ℚ) : List ℚ := l.foldr insertAsc []

/-- Linear interpolation at virtual index `h` into the sorted values, the
default (`linear`) method of `np.percentile`. -/
def interp (s : List ℚ) (h : ℚ) : ℚ :=
  s.getD (⌊h⌋.toNat) 0 +
    (h - ((⌊h⌋.toNat : ℕ) : ℚ)) *
      (s.getD (⌊h⌋.toNat + 1) (s.getD (⌊h⌋.toNat) 0) - s.getD (⌊h⌋.toNat) 0)

/-- Model of `np.percentile(series.values, 80)`: sort, then linearly
interpolate at virtual index `(n - 1) * 80 / 100`. -/
def percentile80 (l : List ℚ) : ℚ :=
  interp (sortAsc l) (((4 * (l.length - 1) : ℕ) : ℚ) / 5)

/-- Round-half-to-even to an integer, the rounding mode of Python's builtin
`round`. -/
def roundHalfEven (x : ℚ) : ℤ :=
  if x - ⌊x⌋ < 1 / 2 then ⌊x⌋
  else if 1 / 2 < x - ⌊x⌋ then ⌊x⌋ + 1
  else if 2 ∣ ⌊x⌋ then ⌊x⌋ else ⌊x⌋ + 1

/-- Model of Python's `round(x, 3)`: round-half-to-even on thousandths. -/
def pyRound3 (x : ℚ) : ℚ := ((roundHalfEven (x * 1000) : ℤ) : ℚ) / 1000

/-- The source's `roundup = lambda x : int(ceil(x/100)) * 100`.  The name
`ceil` is unbound in the module (there is no `from math import ceil`), so a
call of the lambda raises `NameError` at runtime; per the source's own comment
("rounded up to the next hundred by the lambda function") it is modelled as
the mathematical ceiling. -/
def roundup (x : ℚ) : ℤ := ⌈x / 100⌉ * 100

/-- The `while len(intervals) < nbr_of_intervals` loop of the default-interval
branch: starting from bounds `frm`, `to`, append `n` more `[frm, to]` pairs,
advancing both bounds by `u` at each step; when `reRound` is set (the
`percent <= nbr_of_intervals` case) each advanced bound is re-rounded to 3
decimals. -/
def defaultChain (reRound : Bool) (u : ℚ) : ℕ → ℚ → ℚ → List (ℚ × ℚ)
  | 0, _, _ => []
  | n + 1, frm, tov =>
    (frm, tov) ::
      (if reRound then defaultChain reRound u n (pyRound3 (frm + u)) (pyRound3 (tov + u))
       else defaultChain reRound u n (frm + u) (tov + u))

/-- The `intervals is None` branch of `plot_group`: compute the 80th
percentile, derive the interval unit (rounded up to the next hundred when
`percent > 5`, else `round(percent/5, 3)`), build 5 intervals from 0, and set
`higher_vals = True` in both branches, ignoring the caller-supplied value. -/
def resolveDefault (series : List ℚ) (_higher_vals : Bool) : List (ℚ × ℚ) × Bool :=
  if 5 < percentile80 series then
    (defaultChain false ((roundup (percentile80 series / 5) : ℤ) : ℚ) 5 0
      ((roundup (percentile80 series / 5) : ℤ) : ℚ), true)
  else
    (defaultChain true (pyRound3 (percentile80 series / 5)) 5 0
      (pyRound3 (percentile80 series / 5)), true)

/-- Validation loop over user-supplied intervals, carrying the running index:
a sublist whose length is not 2 raises `TypeError`; a sublist `[a, b]` with
`¬ a < b` raises `ValueError`; the error carries the offending index and the
offending sublist, as the source's messages do.  (The `isinstance` checks of
the source cannot fail in this typed model.) -/
def checkIntervalsFrom : ℕ → List (List ℚ) → Except (ErrKind × ℕ × List ℚ) (List (ℚ × ℚ))
  | _, [] => Except.ok []
  | idx, l :: ls =>
    match l with
    | [a, b] =>
      if a < b then
        match checkIntervalsFrom (idx + 1) ls with
        | Except.ok ps => Except.ok ((a, b) :: ps)
        | Except.error e => Except.error e
      else Except.error (ErrKind.ValueKind, idx, l)
    | _ => Except.error (ErrKind.TypeKind, idx, l)

/-- Validation of a user-supplied `intervals` list (the `else` branch of the
intervals section), starting at index 0. -/
def checkIntervals (ivs : List (List ℚ)) : Except (ErrKind × ℕ × List ℚ) (List (ℚ × ℚ)) :=
  checkIntervalsFrom 0 ivs

/-- One iteration of the grouping loop: filter the series by
`(x > itrvl[0]) & (x <= itrvl[1])` and store the matched values with their
count under the label built from the two bounds. -/
def mkBin (s : List ℚ) (p : ℚ × ℚ) : BinLabel × List ℚ × ℕ :=
  (BinLabel.range p.1 p.2,
    s.filter (fun v => decide (p.1 < v) && decide (v ≤ p.2)),
    (s.filter (fun v => decide (p.1 < v) && decide (v ≤ p.2))).length)

/-- The `higher_vals` step: filter the series by `x > intervals[-1][1]` and
store the matches under the overflow label. -/
def overflowBin (s : List ℚ) (hi : ℚ) : BinLabel × List ℚ × ℕ :=
  (BinLabel.plus hi,
    s.filter (fun v => decide (hi < v)),
    (s.filter (fun v => decide (hi < v))).length)

/-- The grouping section of `plot_group`: one bin per interval in order, and,
when `higher_vals` is set, the overflow bin keyed by the last upper bound
appended at the end.  When `higher_vals` is set and the interval list is
empty, `intervals[-1]` raises `IndexError`: modelled as `none`. -/
def groupSeries (s : List ℚ) (ivs : List (ℚ × ℚ)) (higher_vals : Bool) :
    Option (List (BinLabel × List ℚ × ℕ)) :=
  if higher_vals then
    (ivs.getLast?).map (fun p => ivs.map (mkBin s) ++ [overflowBin s p.2])
  else some (ivs.map (mkBin s))

/-- Canonical string form produced by `f"rgb{str(tuple(bar_color))}"`:
Python's `str` of a 3-tuple puts a comma and a space between the entries. -/
def rgbString (r g b : ℤ) : String :=
  "rgb(" ++ toString r ++ ", " ++ toString g ++ ", " ++ toString b ++ ")"

/-- The bar-color check for an iterable color: a `ValueError` unless it has
exactly 3 entries, each an integer between 0 and 255; on success the color is
canonicalized to the `rgb(r, g, b)` string. -/
def checkBarColor : List ℤ → Except ErrKind String
  | [r, g, b] =>
    if 0 ≤ r ∧ r ≤ 255 ∧ 0 ≤ g ∧ g ≤ 255 ∧ 0 ≤ b ∧ b ≤ 255 then
      Except.ok (rgbString r g b)
    else Except.error ErrKind.ValueKind
  | _ => Except.error ErrKind.ValueKind

/-- Contiguity of an interval list: each lower bound equals the previous upper
bound. -/
def Contig : List (ℚ × ℚ) → Prop
  | [] => True
  | [_] => True
  | p :: q :: r => q.1 = p.2 ∧ Contig (q :: r)

/-- A rational is a multiple of one thousandth (the grid on which `pyRound3`
lands). -/
def IsGrid (x : ℚ) : Prop := ∃ m : ℤ, x = (m : ℚ) / 1000

theorem roundHalfEven_ge_floor (x : ℚ) : ⌊x⌋ ≤ roundHalfEven x := by
  unfold roundHalfEven
  split_ifs <;> omega

theorem roundHalfEven_intCast (m : ℤ) : roundHalfEven (m : ℚ) = m := by
  unfold roundHalfEven
  norm_num

theorem pyRound3_grid (x : ℚ) : IsGrid (pyRound3 x) := ⟨roundHalfEven (x * 1000), rfl⟩

theorem pyRound3_fix (x : ℚ) (hx : IsGrid x) : pyRound3 x = x := by
  obtain ⟨m, rfl⟩ := hx
  unfold pyRound3
  rw [div_mul_cancel₀ _ (by norm_num : (1000 : ℚ) ≠ 0), roundHalfEven_intCast]

theorem pyRound3_nonneg (x : ℚ) (hx : 0 ≤ x) : 0 ≤ pyRound3 x := by
  unfold pyRound3
  have h1 : (0 : ℤ) ≤ ⌊x * 1000⌋ := Int.floor_nonneg.mpr (by positivity)
  have h2 := roundHalfEven_ge_floor (x * 1000)
  have h3 : (0 : ℚ) ≤ ((roundHalfEven (x * 1000) : ℤ) : ℚ) := by exact_mod_cast le_trans h1 h2
  positivity

theorem pyRound3_step_ge (x u : ℚ) (hx : IsGrid x) (hu : 0 ≤ u) : x ≤ pyRound3 (x + u) := by
  obtain ⟨m, rfl⟩ := hx
  unfold pyRound3
  have hm : (m : ℚ) ≤ ((m : ℚ) / 1000 + u) * 1000 := by
    have : ((m : ℚ) / 1000 + u) * 1000 = (m : ℚ) + u * 1000 := by ring
    rw [this]
    nlinarith
  have h1 : m ≤ ⌊((m : ℚ) / 1000 + u) * 1000⌋ := Int.le_floor.mpr hm
  have h2 := roundHalfEven_ge_floor (((m : ℚ) / 1000 + u) * 1000)
  have h3 : (m : ℚ) ≤ ((roundHalfEven (((m : ℚ) / 1000 + u) * 1000) : ℤ) : ℚ) := by
    exact_mod_cast le_trans h1 h2
  linarith

theorem sixIndicator (c1 c2 c3 c4 c5 v : ℚ) (h1 : 0 ≤ c1) (h2 : c1 ≤ c2) (h3 : c2 ≤ c3)
    (h4 : c3 ≤ c4) (h5 : c4 ≤ c5) :
    ((if (decide ((0 : ℚ) < v) && decide (v ≤ c1)) = true then 1 else 0) +
      (if (decide (c1 < v) && decide (v ≤ c2)) = true then 1 else 0) +
      (if (decide (c2 < v) && decide (v ≤ c3)) = true then 1 else 0) +
      (if (decide (c3 < v) && decide (v ≤ c4)) = true then 1 else 0) +
      (if (decide (c4 < v) && decide (v ≤ c5)) = true then 1 else 0) +
      (if (decide (c5 < v)) = true then 1 else 0) : ℕ) =
      if (decide ((0 : ℚ) < v)) = true then 1 else 0 := by
  simp only [Bool.and_eq_true, decide_eq_true_eq]
  rcases le_or_lt v 0 with h | h
  · rw [if_neg (fun hc : 0 < v ∧ v ≤ c1 => by linarith [hc.1]),
      if_neg (fun hc : c1 < v ∧ v ≤ c2 => by linarith [hc.1]),
      if_neg (fun hc : c2 < v ∧ v ≤ c3 => by linarith [hc.1]),
      if_neg (fun hc : c3 < v ∧ v ≤ c4 => by linarith [hc.1]),
      if_neg (fun hc : c4 < v ∧ v ≤ c5 => by linarith [hc.1]),
      if_neg (fun hc : c5 < v => by linarith [hc]),
      if_neg (fun hc : (0 : ℚ) < v => by linarith [hc])]
  rcases le_or_lt v c1 with k1 | k1
  · rw [if_pos ⟨h, k1⟩,
      if_neg (fun hc : c1 < v ∧ v ≤ c2 => by linarith [hc.1]),
      if_neg (fun hc : c2 < v ∧ v ≤ c3 => by linarith [hc.1]),
      if_neg (fun hc : c3 < v ∧ v ≤ c4 => by linarith [hc.1]),
      if_neg (fun hc : c4 < v ∧ v ≤ c5 => by linarith [hc.1]),
      if_neg (fun hc : c5 < v => by linarith [hc]),
      if_pos h]
  rcases le_or_lt v c2 with k2 | k2
  · rw [if_neg (fun hc : 0 < v ∧ v ≤ c1 => by linarith [hc.2]),
      if_pos ⟨k1, k2⟩,
      if_neg (fun hc : c2 < v ∧ v ≤ c3 => by linarith [hc.1]),
      if_neg (fun hc : c3 < v ∧ v ≤ c4 => by linarith [hc.1]),
      if_neg (fun hc : c4 < v ∧ v ≤ c5 => by linarith [hc.1]),
      if_neg (fun hc : c5 < v => by linarith [hc]),
      if_pos h]
  rcases le_or_lt v c3 with k3 | k3
  · rw [if_neg (fun hc : 0 < v ∧ v ≤ c1 => by linarith [hc.2]),
      if_neg (fun hc : c1 < v ∧ v ≤ c2 => by linarith [hc.2]),
      if_pos ⟨k2, k3⟩,
      if_neg (fun hc : c3 < v ∧ v ≤ c4 => by linarith [hc.1]),
      if_neg (fun hc : c4 < v ∧ v ≤ c5 => by linarith [hc.1]),
      if_neg (fun hc : c5 < v => by linarith [hc]),
      if_pos h]
  rcases le_or_lt v c4 with k4 | k4
  · rw [if_neg (fun hc : 0 < v ∧ v ≤ c1 => by linarith [hc.2]),
      if_neg (fun hc : c1 < v ∧ v ≤ c2 => by linarith [hc.2]),
      if_neg (fun hc : c2 < v ∧ v ≤ c3 => by linarith [hc.2]),
      if_pos ⟨k3, k4⟩,
      if_neg (fun hc : c4 < v ∧ v ≤ c5 => by linarith [hc.1]),
      if_neg (fun hc : c5 < v => by linarith [hc]),
      if_pos h]
  rcases le_or_lt v c5 with k5 | k5
  · rw [if_neg (fun hc : 0 < v ∧ v ≤ c1 => by linarith [hc.2]),
      if_neg (fun hc : c1 < v ∧ v ≤ c2 => by linarith [hc.2]),
      if_neg (fun hc : c2 < v ∧ v ≤ c3 => by linarith [hc.2]),
      if_neg (fun hc : c3 < v ∧ v ≤ c4 => by linarith [hc.2]),
      if_pos ⟨k4, k5⟩,
      if_neg (fun hc : c5 < v => by linarith [hc]),
      if_pos h]
  · rw [if_neg (fun hc : 0 < v ∧ v ≤ c1 => by linarith [hc.2]),
      if_neg (fun hc : c1 < v ∧ v ≤ c2 => by linarith [hc.2]),
      if_neg (fun hc : c2 < v ∧ v ≤ c3 => by linarith [hc.2]),
      if_neg (fun hc : c3 < v ∧ v ≤ c4 => by linarith [hc.2]),
      if_neg (fun hc : c4 < v ∧ v ≤ c5 => by linarith [hc.2]),
      if_pos k5,
      if_pos h]

theorem sixSum (c1 c2 c3 c4 c5 : ℚ) (h1 : 0 ≤ c1) (h2 : c1 ≤ c2) (h3 : c2 ≤ c3)
    (h4 : c3 ≤ c4) (h5 : c4 ≤ c5) (s : List ℚ) :
    s.countP (fun v => decide ((0 : ℚ) < v) && decide (v ≤ c1)) +
      s.countP (fun v => decide (c1 < v) && decide (v ≤ c2)) +
      s.countP (fun v => decide (c2 < v) && decide (v ≤ c3)) +
      s.countP (fun v => decide (c3 < v) && decide (v ≤ c4)) +
      s.countP (fun v => decide (c4 < v) && decide (v ≤ c5)) +
      s.countP (fun v => decide (c5 < v)) =
      s.countP (fun v => decide ((0 : ℚ) < v)) := by
  induction s with
  | nil => rfl
  | cons v t ih =>
    simp only [List.countP_cons]
    have h6 := sixIndicator c1 c2 c3 c4 c5 v h1 h2 h3 h4 h5
    omega

/-- Claim C10: an empty custom intervals list passes validation (the loop is
vacuous); with `higher_vals = False` the grouping yields zero bins, and with
`higher_vals = True` the overflow step accesses the last element of the empty
interval sequence, which does not exist (modelled as `none`). -/
theorem empty_intervals (s : List ℚ) :
    checkIntervals [] = Except.ok [] ∧
    groupSeries s [] false = some [] ∧
    groupSeries s [] true = none :=
  ⟨rfl, rfl, rfl⟩

/-- Claim C8: an iterable bar color fails with a `ValueError` when its length
is not 3 or some entry is outside `[0, 255]`; otherwise it is canonicalized to
the string `rgb(r, g, b)`. -/
theorem bar_color_check (c : List ℤ) :
    (c.length ≠ 3 → checkBarColor c = Except.error ErrKind.ValueKind) ∧
    ((∃ v ∈ c, v < 0 ∨ 255 < v) → checkBarColor c = Except.error ErrKind.ValueKind) ∧
    (∀ r g b : ℤ, c = [r, g, b] →
      0 ≤ r → r ≤ 255 → 0 ≤ g → g ≤ 255 → 0 ≤ b → b ≤ 255 →
      checkBarColor c = Except.ok (rgbString r g b)) := by
  obtain _ | ⟨r, _ | ⟨g, _ | ⟨b, _ | rest⟩⟩⟩ := c
  · exact ⟨fun _ => rfl, fun _ => rfl, fun r' g' b' heq => absurd heq (by simp)⟩
  · exact ⟨fun _ => rfl, fun _ => rfl, fun r' g' b' heq => absurd heq (by simp)⟩
  · exact ⟨fun _ => rfl, fun _ => rfl, fun r' g' b' heq => absurd heq (by simp)⟩
  · refine ⟨fun h => absurd rfl h, ?_, ?_⟩
    · rintro ⟨v, hv, hout⟩
      have hneg : ¬(0 ≤ r ∧ r ≤ 255 ∧ 0 ≤ g ∧ g ≤ 255 ∧ 0 ≤ b ∧ b ≤ 255) := by
        simp only [List.mem_cons, List.not_mem_nil, or_false] at hv
        rcases hv with rfl | rfl | rfl <;> rintro ⟨e1, e2, e3, e4, e5, e6⟩ <;>
          rcases hout with h' | h' <;> omega
      simp [checkBarColor, hneg]
    · rintro r' g' b' heq hr0 hr1 hg0 hg1 hb0 hb1
      obtain ⟨rfl, rfl, rfl⟩ : r = r' ∧ g = g' ∧ b = b' := by
        simpa using heq
      simp [checkBarColor, hr0, hr1, hg0, hg1, hb0, hb1]
  · exact ⟨fun _ => rfl, fun _ => rfl, fun r' g' b' heq => absurd heq (by simp)⟩

theorem bar_color_check_witness :
    checkBarColor [255, 0, 0] = Except.ok "rgb(255, 0, 0)" ∧
    checkBarColor [256, 0, 0] = Except.error ErrKind.ValueKind := by
  constructor
  · have h := (bar_color_check [255, 0, 0]).2.2 255 0 0 rfl (by norm_num) (by norm_num)
      (by norm_num) (by norm_num) (by norm_num) (by norm_num)
    rw [h]
    have hs : rgbString 255 0 0 = "rgb(255, 0, 0)" := by decide
    rw [hs]
  · exact (bar_color_check [256, 0, 0]).2.1 ⟨256, by simp, by norm_num⟩

theorem checkIntervalsFrom_arity (ivs : List (List ℚ)) : ∀ (k i : ℕ) (l : List ℚ),
    (∀ j, j < i → ∀ lj, ivs[j]? = some lj → ∃ a b, lj = [a, b] ∧ a < b) →
    ivs[i]? = some l → l.length ≠ 2 →
    checkIntervalsFrom k ivs = Except.error (ErrKind.TypeKind, k + i, l) := by
  induction ivs with
  | nil => intro k i l _ hat _; simp at hat
  | cons x t ih =>
    intro k i l hb hat hlen
    cases i with
    | zero =>
      simp only [List.getElem?_cons_zero, Option.some.injEq] at hat
      subst hat
      obtain _ | ⟨a, _ | ⟨b, _ | rest'⟩⟩ := x
      · simp [checkIntervalsFrom]
      · simp [checkIntervalsFrom]
      · exact absurd rfl hlen
      · simp [checkIntervalsFrom]
    | succ i' =>
      obtain ⟨a, b, hx, hab⟩ := hb 0 (Nat.succ_pos _) x (by simp)
      subst hx
      have hrec := ih (k + 1) i' l
        (fun j hj lj hjat => hb (j + 1) (by omega) lj (by simpa using hjat))
        (by simpa using hat) hlen
      show checkIntervalsFrom k ([a, b] :: t) = _
      simp only [checkIntervalsFrom, if_pos hab, hrec]
      have : k + 1 + i' = k + (i' + 1) := by omega
      rw [this]

/-- Claim C7 (amended): when the first invalid element of a user-supplied
intervals list is a sublist whose length is not 2, validation fails with a
`TypeError` (not a `ValueError`) that carries the offending index and the
offending sublist. -/
theorem wrong_arity_type_error (ivs : List (List ℚ)) (i : ℕ) (l : List ℚ)
    (hb : ∀ j, j < i → ∀ lj, ivs[j]? = some lj → ∃ a b, lj = [a, b] ∧ a < b)
    (hat : ivs[i]? = some l) (hlen : l.length ≠ 2) :
    checkIntervals ivs = Except.error (ErrKind.TypeKind, i, l) := by
  simpa [checkIntervals] using checkIntervalsFrom_arity ivs 0 i l hb hat hlen

theorem wrong_arity_type_error_witness :
    checkIntervals [[(1 : ℚ), 2], [(5 : ℚ), 6, 7]] =
      Except.error (ErrKind.TypeKind, 1, [5, 6, 7]) := by
  refine wrong_arity_type_error [[(1 : ℚ), 2], [(5 : ℚ), 6, 7]] 1 [5, 6, 7] ?_ (by rfl) (by simp)
  intro j hj lj hat
  obtain rfl : j = 0 := by omega
  simp only [List.getElem?_cons_zero, Option.some.injEq] at hat
  subst hat
  exact ⟨1, 2, rfl, by norm_num⟩

/-- Claim C7, as stated, is false: a wrong-arity interval raises a
`TypeError`, not a `ValueError`: on input `[[1, 2, 3]]` validation stops with
kind `TypeKind` at index 0. -/
theorem wrong_arity_claim_false :
    checkIntervals [[(1 : ℚ), 2, 3]] = Except.error (ErrKind.TypeKind, 0, [1, 2, 3]) ∧
    ErrKind.TypeKind ≠ ErrKind.ValueKind :=
  ⟨rfl, by simp⟩

/-- Claim C9: with custom intervals `[[0,10],[10,20]]`, `higher_vals = False`
and series `[5, 15, 25]` the result is exactly the bins `0-10 : [5]` and
`10-20 : [15]`, and in general a retained value matching no interval is
silently excluded from every bin (no error is raised). -/
theorem outside_values_dropped :
    groupSeries [5, 15, 25] [(0, 10), (10, 20)] false =
      some [(BinLabel.range 0 10, [5], 1), (BinLabel.range 10 20, [15], 1)] ∧
    ∀ (s : List ℚ) (ivs : List (ℚ × ℚ)) (v : ℚ) (bins : List (BinLabel × List ℚ × ℕ)),
      groupSeries s ivs false = some bins →
      (∀ p ∈ ivs, ¬(p.1 < v ∧ v ≤ p.2)) →
      ∀ b ∈ bins, v ∉ b.2.1 := by
  constructor
  · norm_num [groupSeries, mkBin, List.filter_cons]
  · intro s ivs v bins h hno b hb hmem
    simp only [groupSeries, Bool.false_eq_true, if_false, Option.some.injEq] at h
    subst h
    obtain ⟨p, hp, rfl⟩ := List.mem_map.mp hb
    simp only [mkBin, List.mem_filter, Bool.and_eq_true, decide_eq_true_eq] at hmem
    exact hno p hp ⟨hmem.2.1, hmem.2.2⟩

theorem outside_values_dropped_witness : (25 : ℚ) ∉ (mkBin [25] ((0 : ℚ), (10 : ℚ))).2.1 := by
  refine outside_values_dropped.2 [25] [(0, 10)] 25 [mkBin [25] (0, 10)] ?_ ?_ _ (by simp)
  · simp [groupSeries]
  · intro p hp
    simp only [List.mem_cons, List.not_mem_nil, or_false] at hp
    subst hp
    norm_num

/-- Claim C6: in default-generation mode (no intervals supplied) the overflow
flag is forced on regardless of the caller-supplied `higher_vals`, and the
grouped result therefore always ends with an overflow bin. -/
theorem default_mode_forces_overflow (s : List ℚ) (hv : Bool) :
    (resolveDefault s hv).2 = true ∧
    ∃ bins, groupSeries s (resolveDefault s hv).1 (resolveDefault s hv).2 = some bins ∧
      ∃ hi vals cnt, bins.getLast? = some (BinLabel.plus hi, vals, cnt) := by
  have h2 : (resolveDefault s hv).2 = true := by
    unfold resolveDefault
    split <;> rfl
  refine ⟨h2, ?_⟩
  obtain ⟨p, rest, hp⟩ : ∃ p rest, (resolveDefault s hv).1 = p :: rest := by
    unfold resolveDefault
    split <;> exact ⟨_, _, rfl⟩
  rw [h2, hp]
  obtain ⟨q, hq⟩ : ∃ q, (p :: rest).getLast? = some q :=
    ⟨(p :: rest).getLast (by simp), List.getLast?_eq_getLast _ (by simp)⟩
  refine ⟨(p :: rest).map (mkBin s) ++ [overflowBin s q.2], ?_, q.2,
    s.filter (fun v => decide (q.2 < v)),
    (s.filter (fun v => decide (q.2 < v))).length, ?_⟩
  · simp [groupSeries, hq]
  · simp only [List.getLast?_append, List.getLast?_singleton, Option.or_some, overflowBin]

/-- Claim C1, as stated, is false: for the series `[1,2,3,4,5,100]` the 80th
percentile (numpy linear interpolation) is exactly 5, not 4, so the generated
intervals are not `[[0,0.8],...,[3.2,4.0]]` and the overflow bin holds `[100]`
only, not `[5, 100]`. -/
theorem scenario1_claim_false :
    percentile80 [1, 2, 3, 4, 5, 100] = 5 ∧
    (resolveDefault [1, 2, 3, 4, 5, 100] false).1 ≠
      [(0, 4/5), (4/5, 8/5), (8/5, 12/5), (12/5, 16/5), (16/5, 4)] ∧
    groupSeries [1, 2, 3, 4, 5, 100] (resolveDefault [1, 2, 3, 4, 5, 100] false).1
        (resolveDefault [1, 2, 3, 4, 5, 100] false).2 =
      some [(BinLabel.range 0 1, [1], 1), (BinLabel.range 1 2, [2], 1),
        (BinLabel.range 2 3, [3], 1), (BinLabel.range 3 4, [4], 1),
        (BinLabel.range 4 5, [5], 1), (BinLabel.plus 5, [100], 1)] ∧
    ([100] : List ℚ) ≠ [5, 100] := by
  have hp : percentile80 [1, 2, 3, 4, 5, 100] = 5 := by
    norm_num [percentile80, sortAsc, insertAsc, interp]
    norm_num [show Int.toNat 4 = 4 from rfl]
  have hres : resolveDefault [1, 2, 3, 4, 5, 100] false =
      ([(0, 1), (1, 2), (2, 3), (3, 4), (4, 5)], true) := by
    unfold resolveDefault
    rw [hp]
    norm_num [defaultChain, pyRound3, roundHalfEven]
  refine ⟨hp, ?_, ?_, by norm_num⟩
  · rw [hres]
    norm_num
  · rw [hres]
    norm_num [groupSeries, mkBin, overflowBin, List.filter_cons]

/-- Claim C1 (amended): for the series `[1,2,3,4,5,100]` the resolver computes
an 80th percentile of exactly 5, takes the `P <= 5` branch with
`unit = round(5/5, 3) = 1.0`, generates the intervals
`[[0,1],[1,2],[2,3],[3,4],[4,5]]`, and the overflow bin keyed by 5 contains
exactly the value 100 (the value 5 falls in the last finite bin). -/
theorem scenario1_amended :
    percentile80 [1, 2, 3, 4, 5, 100] = 5 ∧
    resolveDefault [1, 2, 3, 4, 5, 100] false =
      ([(0, 1), (1, 2), (2, 3), (3, 4), (4, 5)], true) ∧
    groupSeries [1, 2, 3, 4, 5, 100] [(0, 1), (1, 2), (2, 3), (3, 4), (4, 5)] true =
      some [(BinLabel.range 0 1, [1], 1), (BinLabel.range 1 2, [2], 1),
        (BinLabel.range 2 3, [3], 1), (BinLabel.range 3 4, [4], 1),
        (BinLabel.range 4 5, [5], 1), (BinLabel.plus 5, [100], 1)] := by
  have hp : percentile80 [1, 2, 3, 4, 5, 100] = 5 := by
    norm_num [percentile80, sortAsc, insertAsc, interp]
    norm_num [show Int.toNat 4 = 4 from rfl]
  refine ⟨hp, ?_, ?_⟩
  · unfold resolveDefault
    rw [hp]
    norm_num [defaultChain, pyRound3, roundHalfEven]
  · norm_num [groupSeries, mkBin, overflowBin, List.filter_cons]

/-- Claim C2: when the 80th percentile exceeds 5 the resolver sets the unit
to the 80th percentile over 5 rounded up to the next multiple of 100 (which is
also `ceil(P/5)` rounded up to the next multiple of 100), enables the overflow
bin, and builds 5 contiguous intervals of exact width `unit` starting at 0
with no re-rounding.  (In the source this branch can never run to completion:
the `roundup` lambda calls the never-imported name `ceil`, so the call raises
`NameError`; this theorem is about the behaviour the source text prescribes
with `ceil` read as the mathematical ceiling.) -/
theorem unit_roundup_when_p_gt_5 (s : List ℚ) (hP : 5 < percentile80 s) (hv : Bool) :
    (resolveDefault s hv).2 = true ∧
    (∀ u : ℚ, u = ((roundup (percentile80 s / 5) : ℤ) : ℚ) →
      (resolveDefault s hv).1 =
        [(0, u), (u, 2 * u), (2 * u, 3 * u), (3 * u, 4 * u), (4 * u, 5 * u)]) ∧
    (100 : ℤ) ∣ roundup (percentile80 s / 5) ∧
    ⌈percentile80 s / 5⌉ ≤ roundup (percentile80 s / 5) ∧
    roundup (percentile80 s / 5) < ⌈percentile80 s / 5⌉ + 100 := by
  have hres : resolveDefault s hv =
      (defaultChain false ((roundup (percentile80 s / 5) : ℤ) : ℚ) 5 0
        ((roundup (percentile80 s / 5) : ℤ) : ℚ), true) := by
    unfold resolveDefault
    rw [if_pos hP]
  refine ⟨by rw [hres], ?_, ?_, ?_, ?_⟩
  · rintro u rfl
    rw [hres]
    simp only [defaultChain, Bool.false_eq_true, if_false, zero_add, List.cons.injEq,
      Prod.mk.injEq, and_true, true_and]
    repeat' apply And.intro
    all_goals first | trivial | ring
  · exact ⟨⌈percentile80 s / 5 / 100⌉, by unfold roundup; ring⟩
  · rw [Int.ceil_le]
    have h1 := Int.le_ceil (percentile80 s / 5 / 100)
    have h2 : percentile80 s / 5 = percentile80 s / 5 / 100 * 100 := by ring
    unfold roundup
    push_cast
    linarith [h1, h2]
  · have h1 := Int.ceil_lt_add_one (percentile80 s / 5 / 100)
    have h2 := Int.le_ceil (percentile80 s / 5)
    have hq : ((roundup (percentile80 s / 5) : ℤ) : ℚ) < ((⌈percentile80 s / 5⌉ + 100 : ℤ) : ℚ) := by
      unfold roundup
      push_cast
      nlinarith [h1, h2]
    exact_mod_cast hq

theorem unit_roundup_when_p_gt_5_witness :
    (resolveDefault [1000] false).1 =
      [(0, 200), (200, 400), (400, 600), (600, 800), (800, 1000)] ∧
    (100 : ℤ) ∣ roundup (percentile80 [1000] / 5) := by
  have hp : percentile80 [1000] = 1000 := by
    norm_num [percentile80, sortAsc, insertAsc, interp]
  have hP : (5 : ℚ) < percentile80 [1000] := by rw [hp]; norm_num
  have h := unit_roundup_when_p_gt_5 [1000] hP false
  constructor
  · have h2 := h.2.1 ((roundup (percentile80 [1000] / 5) : ℤ) : ℚ) rfl
    rw [h2, hp]
    have hru : roundup ((1000 : ℚ) / 5) = 200 := by
      unfold roundup
      norm_num
    rw [hru]
    norm_num
  · exact h.2.2.1

/-- Claim C3, as stated, is false: for the valid series `[-10, -1]` (80th
percentile `-2.8`, `P <= 5` branch, negative unit `-0.56`) the overflow bin
catches the value `-1`, so the total of the bin counts is 1 while no series
value is strictly positive, and a value `<= 0` does sit in a bin. -/
theorem neg_series_claim_false :
    resolveDefault [-10, -1] false =
      ([(0, -14/25), (-14/25, -28/25), (-28/25, -42/25), (-42/25, -56/25), (-56/25, -14/5)],
        true) ∧
    groupSeries [-10, -1]
        [(0, -14/25), (-14/25, -28/25), (-28/25, -42/25), (-42/25, -56/25), (-56/25, -14/5)]
        true =
      some [(BinLabel.range 0 (-14/25), [], 0), (BinLabel.range (-14/25) (-28/25), [], 0),
        (BinLabel.range (-28/25) (-42/25), [], 0), (BinLabel.range (-42/25) (-56/25), [], 0),
        (BinLabel.range (-56/25) (-14/5), [], 0), (BinLabel.plus (-14/5), [-1], 1)] ∧
    (([(BinLabel.range 0 (-14/25), ([] : List ℚ), 0), (BinLabel.range (-14/25) (-28/25), [], 0),
        (BinLabel.range (-28/25) (-42/25), [], 0), (BinLabel.range (-42/25) (-56/25), [], 0),
        (BinLabel.range (-56/25) (-14/5), [], 0), (BinLabel.plus (-14/5), [-1], 1)].map
        (fun b => b.2.2)).sum = 1) ∧
    (List.filter (fun v => decide ((0 : ℚ) < v)) [-10, -1]).length = 0 ∧
    (1 : ℕ) ≠ 0 ∧
    (-1 : ℚ) ≤ 0 ∧ (-1 : ℚ) ∈ (BinLabel.plus ((-14 : ℚ)/5), ([-1] : List ℚ), 1).2.1 := by
  have hp : percentile80 [-10, -1] = -14/5 := by
    norm_num [percentile80, sortAsc, insertAsc, interp]
  refine ⟨?_, ?_, by norm_num, by norm_num, by norm_num, by norm_num, by norm_num⟩
  · unfold resolveDefault
    rw [hp]
    norm_num [defaultChain, pyRound3, roundHalfEven]
  · norm_num [groupSeries, mkBin, overflowBin, List.filter_cons]

theorem contig_head_le : ∀ (ivs : List (ℚ × ℚ)) (p : ℚ × ℚ), Contig (p :: ivs) →
    (∀ q ∈ p :: ivs, q.1 < q.2) → ∀ q ∈ p :: ivs, p.1 ≤ q.1 ∧ p.1 < q.2 := by
  intro ivs
  induction ivs with
  | nil =>
    intro p _ hlt q hq
    simp only [List.mem_singleton] at hq
    subst hq
    exact ⟨le_refl _, hlt q (by simp)⟩
  | cons r t ih =>
    intro p hc hlt q hq
    obtain ⟨hr1, hc'⟩ : r.1 = p.2 ∧ Contig (r :: t) := hc
    rcases List.mem_cons.mp hq with rfl | hq'
    · exact ⟨le_refl _, hlt q (by simp)⟩
    · have hp2 : p.1 < p.2 := hlt p (by simp)
      have hrec := ih r hc' (fun q' hq'' => hlt q' (List.mem_cons_of_mem _ hq'')) q hq'
      exact ⟨by linarith [hrec.1, hr1.le, hr1.ge], by linarith [hrec.2, hr1.le, hr1.ge]⟩

theorem contig_countP_one : ∀ (ivs : List (ℚ × ℚ)) (p : ℚ × ℚ), Contig (p :: ivs) →
    (∀ q ∈ p :: ivs, q.1 < q.2) → ∀ v : ℚ, p.1 < v →
    (p :: ivs).countP (fun q => decide (q.1 < v) && decide (v ≤ q.2)) +
      (if ((p :: ivs).getLast (by simp)).2 < v then 1 else 0) = 1 := by
  intro ivs
  induction ivs with
  | nil =>
    intro p _ _ v hv
    rw [List.countP_cons, List.countP_nil, List.getLast_singleton]
    simp only [Bool.and_eq_true, decide_eq_true_eq]
    rcases le_or_lt v p.2 with h | h
    · rw [if_pos ⟨hv, h⟩, if_neg (not_lt.mpr h)]
    · rw [if_neg (fun hc : p.1 < v ∧ v ≤ p.2 => by linarith [hc.2]), if_pos h]
  | cons r t ih =>
    intro p hc hlt v hv
    obtain ⟨hr1, hc'⟩ : r.1 = p.2 ∧ Contig (r :: t) := hc
    have hlt' : ∀ q ∈ r :: t, q.1 < q.2 := fun q hq => hlt q (List.mem_cons_of_mem _ hq)
    rw [List.countP_cons]
    rw [List.getLast_cons (by simp : (r :: t) ≠ [])]
    simp only [Bool.and_eq_true, decide_eq_true_eq]
    rcases le_or_lt v p.2 with h | h
    · have hall := contig_head_le t r hc' hlt'
      have hcount0 : (r :: t).countP (fun q => decide (q.1 < v) && decide (v ≤ q.2)) = 0 := by
        rw [List.countP_eq_zero]
        intro q hq
        have hq' := hall q hq
        simp only [Bool.and_eq_true, decide_eq_true_eq, not_and]
        intro hq1 hq2
        linarith [hq'.1, hr1.le, hr1.ge]
      have hlast : ¬ ((r :: t).getLast (by simp)).2 < v := by
        have hmem := List.getLast_mem (l := r :: t) (by simp)
        have h1 := hall _ hmem
        have h2 := hlt' _ hmem
        rw [not_lt]
        linarith [h1.1, h2, hr1.le, hr1.ge]
      rw [hcount0, if_pos ⟨hv, h⟩, if_neg hlast]
    · have hrec := ih r hc' hlt' v (by linarith [hr1.le, hr1.ge])
      simp only [Bool.and_eq_true, decide_eq_true_eq] at hrec
      rw [if_neg (fun hcn : p.1 < v ∧ v ≤ p.2 => by linarith [hcn.2])]
      omega

/-- Claim C4: for contiguous validated custom intervals with the overflow bin
enabled, every retained series value above the first lower bound lies in
exactly one bin of the result. -/
theorem exactly_one_bin (s : List ℚ) (ivs : List (ℚ × ℚ)) (p0 : ℚ × ℚ)
    (rest : List (ℚ × ℚ)) (hcons : ivs = p0 :: rest)
    (hc : Contig ivs) (hlt : ∀ p ∈ ivs, p.1 < p.2)
    (v : ℚ) (hvs : v ∈ s) (hv : p0.1 < v)
    (bins : List (BinLabel × List ℚ × ℕ)) (h : groupSeries s ivs true = some bins) :
    bins.countP (fun b => decide (v ∈ b.2.1)) = 1 := by
  subst hcons
  have hlast : (p0 :: rest).getLast? = some ((p0 :: rest).getLast (by simp)) :=
    List.getLast?_eq_getLast _ (by simp)
  rw [groupSeries, if_pos rfl, hlast, Option.map_some'] at h
  have hbins := Option.some.injEq _ _ ▸ h
  subst hbins
  rw [List.countP_append, List.countP_map]
  have hfin : (p0 :: rest).countP
      ((fun b => decide (v ∈ b.2.1)) ∘ mkBin s) =
      (p0 :: rest).countP (fun q => decide (q.1 < v) && decide (v ≤ q.2)) := by
    apply List.countP_congr
    intro q _
    simp only [Function.comp_apply, Bool.and_eq_true, decide_eq_true_eq, mkBin,
      List.mem_filter]
    exact ⟨fun hx => ⟨hx.2.1, hx.2.2⟩, fun hx => ⟨hvs, hx.1, hx.2⟩⟩
  have hovf : List.countP (fun b => decide (v ∈ b.2.1))
      [overflowBin s (((p0 :: rest).getLast (by simp)).2)] =
      if (((p0 :: rest).getLast (by simp)).2 < v) then 1 else 0 := by
    rw [List.countP_cons, List.countP_nil, Nat.zero_add]
    refine if_congr ?_ rfl rfl
    simp [overflowBin, List.mem_filter, hvs]
  rw [hfin, hovf]
  exact contig_countP_one rest p0 hc hlt v hv

theorem exactly_one_bin_witness :
    ([mkBin [3] ((0 : ℚ), 2), mkBin [3] ((2 : ℚ), 4), overflowBin [3] 4].countP
      (fun b => decide ((3 : ℚ) ∈ b.2.1))) = 1 := by
  refine exactly_one_bin [3] [(0, 2), (2, 4)] (0, 2) [(2, 4)] rfl ⟨rfl, trivial⟩ ?_ 3
    (by simp) (by norm_num) [mkBin [3] (0, 2), mkBin [3] (2, 4), overflowBin [3] 4] ?_
  · intro p hp
    rcases List.mem_cons.mp hp with rfl | hp'
    · norm_num
    · simp only [List.mem_singleton] at hp'
      subst hp'
      norm_num
  · simp [groupSeries]

theorem grouped_chain_count (s : List ℚ) (c1 c2 c3 c4 c5 : ℚ)
    (h1 : 0 ≤ c1) (h2 : c1 ≤ c2) (h3 : c2 ≤ c3) (h4 : c3 ≤ c4) (h5 : c4 ≤ c5) :
    groupSeries s [(0, c1), (c1, c2), (c2, c3), (c3, c4), (c4, c5)] true =
      some [mkBin s (0, c1), mkBin s (c1, c2), mkBin s (c2, c3), mkBin s (c3, c4),
        mkBin s (c4, c5), overflowBin s c5] ∧
    (([mkBin s (0, c1), mkBin s (c1, c2), mkBin s (c2, c3), mkBin s (c3, c4),
        mkBin s (c4, c5), overflowBin s c5].map (fun b => b.2.2)).sum =
      (s.filter (fun v => decide ((0 : ℚ) < v))).length) ∧
    (∀ v ∈ s, v ≤ 0 →
      ∀ b ∈ [mkBin s (0, c1), mkBin s (c1, c2), mkBin s (c2, c3), mkBin s (c3, c4),
        mkBin s (c4, c5), overflowBin s c5], v ∉ b.2.1) := by
  refine ⟨rfl, ?_, ?_⟩
  · simp only [List.map_cons, List.map_nil, List.sum_cons, List.sum_nil, mkBin, overflowBin]
    simp only [← List.countP_eq_length_filter]
    have h6 := sixSum c1 c2 c3 c4 c5 h1 h2 h3 h4 h5 s
    omega
  · intro v hv hv0 b hb
    have k2 : (0 : ℚ) ≤ c2 := le_trans h1 h2
    have k3 : (0 : ℚ) ≤ c3 := le_trans k2 h3
    have k4 : (0 : ℚ) ≤ c4 := le_trans k3 h4
    have k5 : (0 : ℚ) ≤ c5 := le_trans k4 h5
    simp only [List.mem_cons, List.not_mem_nil, or_false] at hb
    rcases hb with rfl | rfl | rfl | rfl | rfl | rfl <;>
      simp only [mkBin, overflowBin, List.mem_filter, Bool.and_eq_true, decide_eq_true_eq] <;>
      first
        | (rintro ⟨-, hlo, -⟩; linarith)
        | (rintro ⟨-, hlo⟩; linarith)

/-- Claim C3 (amended): for every nonempty valid series whose 80th percentile
is nonnegative, with default-derived intervals the sum of all bin counts
(including the overflow bin) equals the number of retained values strictly
greater than 0, and no value `<= 0` is matched by any bin.  (The original
claim, quantified over all valid series, fails for series with negative
percentile: see the counterexample.) -/
theorem default_bins_total_count (s : List ℚ) (hne : s ≠ [])
    (hP : 0 ≤ percentile80 s) (hv : Bool)
    (bins : List (BinLabel × List ℚ × ℕ))
    (h : groupSeries s (resolveDefault s hv).1 (resolveDefault s hv).2 = some bins) :
    (bins.map (fun b => b.2.2)).sum =
      (s.filter (fun v => decide ((0 : ℚ) < v))).length ∧
    ∀ v ∈ s, v ≤ 0 → ∀ b ∈ bins, v ∉ b.2.1 := by
  by_cases hgt : 5 < percentile80 s
  · have hres : resolveDefault s hv =
        (defaultChain false ((roundup (percentile80 s / 5) : ℤ) : ℚ) 5 0
          ((roundup (percentile80 s / 5) : ℤ) : ℚ), true) := by
      unfold resolveDefault
      rw [if_pos hgt]
    set u : ℚ := ((roundup (percentile80 s / 5) : ℤ) : ℚ) with hu
    have hu0 : 0 ≤ u := by
      have hps : (0 : ℚ) < percentile80 s := by linarith
      have hp0 : (0 : ℚ) < percentile80 s / 5 / 100 :=
        div_pos (div_pos hps (by norm_num)) (by norm_num)
      have hc1 : (1 : ℤ) ≤ ⌈percentile80 s / 5 / 100⌉ := Int.ceil_pos.mpr hp0
      have hc2 : (0 : ℤ) ≤ ⌈percentile80 s / 5 / 100⌉ * 100 := by nlinarith
      rw [hu]
      unfold roundup
      exact_mod_cast hc2
    have hchain : defaultChain false u 5 0 u =
        [(0, u), (u, u + u), (u + u, u + u + u), (u + u + u, u + u + u + u),
          (u + u + u + u, u + u + u + u + u)] := by
      norm_num [defaultChain]
    rw [hres] at h
    dsimp only at h
    rw [hchain] at h
    have H := grouped_chain_count s u (u + u) (u + u + u) (u + u + u + u) (u + u + u + u + u)
      hu0 (by linarith) (by linarith) (by linarith) (by linarith)
    rw [H.1] at h
    have hb := Option.some.inj h
    subst hb
    exact ⟨H.2.1, H.2.2⟩
  · have hle : percentile80 s ≤ 5 := not_lt.mp hgt
    have hres : resolveDefault s hv =
        (defaultChain true (pyRound3 (percentile80 s / 5)) 5 0
          (pyRound3 (percentile80 s / 5)), true) := by
      unfold resolveDefault
      rw [if_neg hgt]
    set u : ℚ := pyRound3 (percentile80 s / 5) with hu
    have hufix : pyRound3 u = u := pyRound3_fix u (by rw [hu]; exact pyRound3_grid _)
    have hu0 : 0 ≤ u := by
      rw [hu]
      exact pyRound3_nonneg _ (div_nonneg hP (by norm_num))
    have hug : IsGrid u := by rw [hu]; exact pyRound3_grid _
    have hchain : defaultChain true u 5 0 u =
        [(0, u), (u, pyRound3 (u + u)),
          (pyRound3 (u + u), pyRound3 (pyRound3 (u + u) + u)),
          (pyRound3 (pyRound3 (u + u) + u), pyRound3 (pyRound3 (pyRound3 (u + u) + u) + u)),
          (pyRound3 (pyRound3 (pyRound3 (u + u) + u) + u),
            pyRound3 (pyRound3 (pyRound3 (pyRound3 (u + u) + u) + u) + u))] := by
      norm_num [defaultChain, hufix]
    rw [hres] at h
    dsimp only at h
    rw [hchain] at h
    have e2 : u ≤ pyRound3 (u + u) := pyRound3_step_ge u u hug hu0
    have e3 : pyRound3 (u + u) ≤ pyRound3 (pyRound3 (u + u) + u) :=
      pyRound3_step_ge _ u (pyRound3_grid _) hu0
    have e4 : pyRound3 (pyRound3 (u + u) + u) ≤ pyRound3 (pyRound3 (pyRound3 (u + u) + u) + u) :=
      pyRound3_step_ge _ u (pyRound3_grid _) hu0
    have e5 : pyRound3 (pyRound3 (pyRound3 (u + u) + u) + u) ≤
        pyRound3 (pyRound3 (pyRound3 (pyRound3 (u + u) + u) + u) + u) :=
      pyRound3_step_ge _ u (pyRound3_grid _) hu0
    have H := grouped_chain_count s u (pyRound3 (u + u)) (pyRound3 (pyRound3 (u + u) + u))
      (pyRound3 (pyRound3 (pyRound3 (u + u) + u) + u))
      (pyRound3 (pyRound3 (pyRound3 (pyRound3 (u + u) + u) + u) + u))
      hu0 e2 e3 e4 e5
    rw [H.1] at h
    have hb := Option.some.inj h
    subst hb
    exact ⟨H.2.1, H.2.2⟩

theorem default_bins_total_count_witness :
    (([(BinLabel.range 0 (1/5), ([] : List ℚ), 0), (BinLabel.range (1/5) (2/5), [], 0),
        (BinLabel.range (2/5) (3/5), [], 0), (BinLabel.range (3/5) (4/5), [], 0),
        (BinLabel.range (4/5) 1, [1], 1), (BinLabel.plus 1, [], 0)].map
        (fun b => b.2.2)).sum =
      (List.filter (fun v => decide ((0 : ℚ) < v)) [1]).length) := by
  have hp : percentile80 [1] = 1 := by
    norm_num [percentile80, sortAsc, insertAsc, interp]
  have hres : resolveDefault [1] false =
      ([(0, 1/5), (1/5, 2/5), (2/5, 3/5), (3/5, 4/5), (4/5, 1)], true) := by
    unfold resolveDefault
    rw [hp]
    norm_num [defaultChain, pyRound3, roundHalfEven]
  refine (default_bins_total_count [1] (by simp) (by rw [hp]; norm_num) false
    [(BinLabel.range 0 (1/5), [], 0), (BinLabel.range (1/5) (2/5), [], 0),
      (BinLabel.range (2/5) (3/5), [], 0), (BinLabel.range (3/5) (4/5), [], 0),
      (BinLabel.range (4/5) 1, [1], 1), (BinLabel.plus 1, [], 0)] ?_).1
  rw [hres]
  norm_num [groupSeries, mkBin, overflowBin, List.filter_cons]

/-- Claim C5: the binner puts a value `v` in the bin of interval `(lo, hi)`
iff `lo < v <= hi`; the k-th bin of the result is exactly the bin of the k-th
resolved interval, labelled by its two bounds and storing the matched subset
with its count; and a value equal to an interval's upper bound belongs to that
interval and not to the (contiguous) next one. -/
theorem bin_semantics (s : List ℚ) (ivs : List (ℚ × ℚ)) (hv : Bool)
    (bins : List (BinLabel × List ℚ × ℕ)) (h : groupSeries s ivs hv = some bins) :
    (∀ k (hk : k < ivs.length), bins[k]? = some (mkBin s (ivs.get ⟨k, hk⟩))) ∧
    (∀ (p : ℚ × ℚ) (v : ℚ), v ∈ (mkBin s p).2.1 ↔ v ∈ s ∧ p.1 < v ∧ v ≤ p.2) ∧
    (∀ p : ℚ × ℚ, (mkBin s p).1 = BinLabel.range p.1 p.2 ∧
      (mkBin s p).2.2 = (mkBin s p).2.1.length) ∧
    (∀ k (hk : k < ivs.length) (hk1 : k + 1 < ivs.length),
      (ivs.get ⟨k + 1, hk1⟩).1 = (ivs.get ⟨k, hk⟩).2 →
      ∀ v ∈ s, v = (ivs.get ⟨k, hk⟩).2 → (ivs.get ⟨k, hk⟩).1 < v →
        v ∈ (mkBin s (ivs.get ⟨k, hk⟩)).2.1 ∧ v ∉ (mkBin s (ivs.get ⟨k + 1, hk1⟩)).2.1) := by
  have hmem : ∀ (p : ℚ × ℚ) (v : ℚ), v ∈ (mkBin s p).2.1 ↔ v ∈ s ∧ p.1 < v ∧ v ≤ p.2 := by
    intro p v
    simp [mkBin, List.mem_filter]
  have hbins : ∃ tail, bins = ivs.map (mkBin s) ++ tail := by
    cases hvb : hv with
    | false =>
      rw [hvb] at h
      simp only [groupSeries, Bool.false_eq_true, if_false, Option.some.injEq] at h
      exact ⟨[], by rw [← h, List.append_nil]⟩
    | true =>
      rw [hvb] at h
      cases hlast : ivs.getLast? with
      | none =>
        rw [groupSeries, if_pos rfl, hlast] at h
        exact absurd h (by simp)
      | some p =>
        rw [groupSeries, if_pos rfl, hlast, Option.map_some', Option.some.injEq] at h
        exact ⟨[overflowBin s p.2], h.symm⟩
  have hpos : ∀ k (hk : k < ivs.length), bins[k]? = some (mkBin s (ivs.get ⟨k, hk⟩)) := by
    intro k hk
    obtain ⟨tail, rfl⟩ := hbins
    rw [List.getElem?_append, if_pos (by simpa using hk), List.getElem?_map,
      List.getElem?_eq_getElem hk]
    rfl
  refine ⟨hpos, hmem, fun p => ⟨rfl, rfl⟩, ?_⟩
  intro k hk hk1 hcontig v hvs hveq hvlo
  constructor
  · exact (hmem _ v).mpr ⟨hvs, hvlo, le_of_eq hveq⟩
  · intro hin
    have hx := (hmem _ v).mp hin
    have hlt : (ivs.get ⟨k, hk⟩).2 < v := hcontig ▸ hx.2.1
    rw [← hveq] at hlt
    exact lt_irrefl v hlt

theorem empty_intervals_witness : groupSeries [3] [] true = none :=
  (empty_intervals [3]).2.2

theorem default_mode_forces_overflow_witness : (resolveDefault [7] true).2 = true :=
  (default_mode_forces_overflow [7] true).1

theorem bin_semantics_witness :
    (2 : ℚ) ∈ (mkBin [2, 3] ((0 : ℚ), (2 : ℚ))).2.1 ∧
    (2 : ℚ) ∉ (mkBin [2, 3] ((2 : ℚ), (4 : ℚ))).2.1 := by
  have h := bin_semantics [2, 3] [(0, 2), (2, 4)] false
    [mkBin [2, 3] (0, 2), mkBin [2, 3] (2, 4)] rfl
  exact h.2.2.2 0 (by norm_num) (by norm_num) rfl 2 (by simp) rfl (by norm_num)

end PlotlyGroup
